import Mathlib

/-!
Verification of a small Python HTTP server (`request.py`, `response.py`,
`route.py`, `server.py`).

Modelling conventions (shallow embedding):

* A Python `str` is modelled as a `List Char` (`PyStr`).  Lone surrogates,
  which Lean's `Char` cannot represent, are outside the model.
* A Python `dict` (insertion ordered) is modelled as an association list
  `List (PyStr × PyStr)` together with `dictInsert` (update in place if the
  key is present, append otherwise) and `dictGet?`.
* `str.split(sep, 1)` is modelled by `pySplit1NE` (returns `none` when the
  separator does not occur, matching the `ValueError` raised by unpacking
  the one-element result), `str.split(sep)` by `pySplitListNE`, and
  `str.split()` (whitespace split) by `pySplitWs`.
* Python `int` is modelled as `Int`; `str(int)` as `intStr`.
* `json.dumps` on a `Dict[str, str]` (default arguments, `ensure_ascii`)
  is modelled by `jsonDumps`; `json.loads` restricted to the flat
  string-to-string object grammar that `jsonDumps` emits is modelled by
  `jsonLoads?` and `jsonLoadsDict` (the latter builds the insertion-ordered
  dict, keeping the last occurrence of a repeated key).
* Exceptions caught at a boundary become `Option`/sentinel results; the
  totality of the Lean functions models "never raises past this boundary".
-/

/-- A Python string, modelled as its list of characters. -/
abbrev PyStr := List Char

/-- Characters of a Lean string literal, used to write `PyStr` constants. -/
def S (s : String) : PyStr := s.data

/-- Does `pat` occur at the start of the second argument?  Model of the
startswith test used when locating the first occurrence of a separator. -/
def begWith : PyStr → PyStr → Bool
  | [], _ => true
  | _ :: _, [] => false
  | p :: ps, c :: cs => p == c && begWith ps cs

/-- Model of Python `s.split(sep, 1)` for a non-empty separator
`s0 :: t`: `some (before, after)` around the first occurrence of the
separator, `none` when the separator does not occur in `s`. -/
def pySplit1NE (s0 : Char) (t : PyStr) : PyStr → Option (PyStr × PyStr)
  | [] => none
  | c :: rest =>
    if begWith (s0 :: t) (c :: rest) then some ([], rest.drop t.length)
    else (pySplit1NE s0 t rest).map (fun p => (c :: p.1, p.2))

/-- Model of Python `s.split(sep)` for a non-empty separator `s0 :: t`:
splits at every (leftmost, non-overlapping) occurrence of the separator. -/
def pySplitListNE (s0 : Char) (t : PyStr) : PyStr → List PyStr
  | [] => [[]]
  | c :: rest =>
    if begWith (s0 :: t) (c :: rest) then
      [] :: pySplitListNE s0 t (rest.drop t.length)
    else
      match pySplitListNE s0 t rest with
      | [] => [[c]]
      | s :: ss => (c :: s) :: ss
termination_by l => l.length
decreasing_by
  · simp only [List.length_drop, List.length_cons]; omega
  · simp only [List.length_cons]; omega

/-- The characters CPython's `str.split()` (and `str.isspace()`) treats
as whitespace: `0x09`–`0x0d`, `0x1c`–`0x1f`, space, NEL `0x85`, NBSP
`0xa0`, Ogham space `0x1680`, the `0x2000`–`0x200a` spaces, line and
paragraph separators `0x2028`/`0x2029`, narrow NBSP `0x202f`, medium
mathematical space `0x205f`, and ideographic space `0x3000`. -/
def pyIsSpace (c : Char) : Bool :=
  (9 ≤ c.toNat && c.toNat ≤ 13) || (28 ≤ c.toNat && c.toNat ≤ 31) ||
  c.toNat == 32 || c.toNat == 133 || c.toNat == 160 ||
  c.toNat == 5760 || (8192 ≤ c.toNat && c.toNat ≤ 8202) ||
  c.toNat == 8232 || c.toNat == 8233 || c.toNat == 8239 ||
  c.toNat == 8287 || c.toNat == 12288

/-- Accumulator worker for `pySplitWs`; `acc` holds the current token
reversed. -/
def pySplitWsAux : PyStr → PyStr → List PyStr
  | [], acc => if acc.isEmpty then [] else [acc.reverse]
  | c :: rest, acc =>
    if pyIsSpace c then
      if acc.isEmpty then pySplitWsAux rest []
      else acc.reverse :: pySplitWsAux rest []
    else pySplitWsAux rest (c :: acc)

/-- Model of Python `s.split()` (no arguments): maximal runs of
non-whitespace characters, with no empty tokens. -/
def pySplitWs (l : PyStr) : List PyStr := pySplitWsAux l []

/-- Join a list of strings with a separator (inverse image of splitting;
used to build the well-formed inputs of the parsing claims). -/
def joinWith (sep : PyStr) : List PyStr → PyStr
  | [] => []
  | [a] => a
  | a :: b :: rest => a ++ sep ++ joinWith sep (b :: rest)

/-- The CRLF line separator. -/
def crlf : PyStr := ['\r', '\n']

/-- The blank-line separator between the header block and the body. -/
def blankSep : PyStr := ['\r', '\n', '\r', '\n']

/-- Python dict assignment `d[k] = v` on an insertion-ordered dict:
update the value in place when the key is present, append otherwise. -/
def dictInsert (d : List (PyStr × PyStr)) (k v : PyStr) :
    List (PyStr × PyStr) :=
  if d.any (fun p => p.1 == k) then
    d.map (fun p => if p.1 == k then (k, v) else p)
  else d ++ [(k, v)]

/-- Python dict lookup `d.get(k)`. -/
def dictGet? (d : List (PyStr × PyStr)) (k : PyStr) : Option PyStr :=
  (d.find? (fun p => p.1 == k)).map (fun p => p.2)

/-- The dict built by inserting a list of key/value pairs in order
(`{}` then `d[k] = v` for each pair); keeps the last value of a
duplicated key. -/
def pyDict (ps : List (PyStr × PyStr)) : List (PyStr × PyStr) :=
  ps.foldl (fun d p => dictInsert d p.1 p.2) []

/-- `request.py`: the `Request` class.  `body` is a string in every
`Request` that `from_raw` produces (the empty dict a falsy body is
replaced by in `__init__` is identified with the empty string here). -/
structure Request where
  method : PyStr
  path : PyStr
  headers : List (PyStr × PyStr)
  body : PyStr
deriving DecidableEq, Repr

/-- The empty-sentinel `Request('', '', {}, '')` returned on parse
failure. -/
def Request.empty : Request := ⟨[], [], [], []⟩

/-- `request.py`, `Request.from_raw`: split off the body at the first
blank line, split the header block into CRLF-separated lines, split the
request line on whitespace into exactly three tokens, and collect the
`key: value` header lines (lines without a `': '` are skipped; a later
occurrence of a key overwrites an earlier one).  Any failure (no blank
line; request line not exactly three tokens) yields the sentinel: the
`try`/`except ValueError` never lets an error escape, which the totality
of this function models. -/
def Request.from_raw (raw_data : PyStr) : Request :=
  match pySplit1NE '\r' ['\n', '\r', '\n'] raw_data with
  | none => Request.empty
  | some (headers, body) =>
    match pySplitListNE '\r' ['\n'] headers with
    | [] => Request.empty
    | request_line :: header_lines =>
      match pySplitWs request_line with
      | [method, path, _] =>
        { method := method
          path := path
          headers := header_lines.foldl (fun d line =>
            match pySplit1NE ':' [' '] line with
            | some kv => dictInsert d kv.1 kv.2
            | none => d) []
          body := body }
      | _ => Request.empty

/-- The decimal digits of a natural number (characters `'0'`–`'9'`). -/
def natDigits (n : Nat) : PyStr :=
  if n < 10 then [Char.ofNat (48 + n)]
  else natDigits (n / 10) ++ [Char.ofNat (48 + n % 10)]
decreasing_by exact Nat.div_lt_self (by omega) (by omega)

/-- Model of Python `str(i)` on `int`. -/
def intStr (i : Int) : PyStr :=
  if i < 0 then '-' :: natDigits i.natAbs else natDigits i.toNat

/-- A hexadecimal digit character (lowercase, as Python's `%04x`). -/
def hexDigitChar (n : Nat) : Char :=
  Char.ofNat (if n < 10 then 48 + n else 87 + n)

/-- The four hex digits of `n < 0x10000`, most significant first. -/
def uEscDigits (n : Nat) : PyStr :=
  [hexDigitChar (n / 4096 % 16), hexDigitChar (n / 256 % 16),
   hexDigitChar (n / 16 % 16), hexDigitChar (n % 16)]

/-- A `\uXXXX` escape. -/
def uEsc (n : Nat) : PyStr := '\\' :: 'u' :: uEscDigits n

/-- How `json.dumps` (default `ensure_ascii=True`) renders one character
of a string: `"` and `\` and the five short control escapes, `\uXXXX`
for the remaining characters outside `0x20`–`0x7e` (a surrogate pair for
characters beyond `0xffff`), the character itself otherwise. -/
def escapeChar (c : Char) : PyStr :=
  if c = '"' then ['\\', '"']
  else if c = '\\' then ['\\', '\\']
  else if c = Char.ofNat 8 then ['\\', 'b']
  else if c = Char.ofNat 9 then ['\\', 't']
  else if c = Char.ofNat 10 then ['\\', 'n']
  else if c = Char.ofNat 12 then ['\\', 'f']
  else if c = Char.ofNat 13 then ['\\', 'r']
  else if c.toNat < 32 ∨ 126 < c.toNat then
    if c.toNat < 65536 then uEsc c.toNat
    else uEsc (55296 + (c.toNat - 65536) / 1024) ++
         uEsc (56320 + (c.toNat - 65536) % 1024)
  else [c]

/-- `json.dumps` escaping of a whole string (without the quotes). -/
def escapeStr (s : PyStr) : PyStr := s.foldr (fun c acc => escapeChar c ++ acc) []

/-- One `"key": "value"` member as `json.dumps` renders it. -/
def serializeMember (p : PyStr × PyStr) : PyStr :=
  '"' :: escapeStr p.1 ++ '"' :: ':' :: ' ' :: '"' :: escapeStr p.2 ++ ['"']

/-- The members of an object joined with `json.dumps`' default item
separator `", "`. -/
def joinMembers : List (PyStr × PyStr) → PyStr
  | [] => []
  | [p] => serializeMember p
  | p :: q :: ps => serializeMember p ++ ',' :: ' ' :: joinMembers (q :: ps)

/-- Model of `json.dumps` on a `Dict[str, str]` with default arguments. -/
def jsonDumps (d : List (PyStr × PyStr)) : PyStr :=
  '{' :: joinMembers d ++ ['}']

/-- `response.py`: the class attribute
`status_messages = {200: 'OK', 400: 'Bad Request', 404: 'Not Found'}`. -/
def status_messages : List (Int × PyStr) :=
  [(200, S "OK"), (400, S "Bad Request"), (404, S "Not Found")]

/-- Python `table.get(k, dflt)` on an `int`-keyed dict. -/
def tableGet (t : List (Int × PyStr)) (k : Int) (dflt : PyStr) : PyStr :=
  match t.find? (fun p => p.1 == k) with
  | some p => p.2
  | none => dflt

/-- `response.py`: the `Response` class; `status_text` is derived from
`status_code` at construction. -/
structure Response where
  status_code : Int
  status_text : PyStr
  content : List (PyStr × PyStr)
deriving DecidableEq, Repr

/-- `response.py`, `Response.__init__`: `status_text` is
`status_messages.get(code, 'Unknown')`; `content or {}` replaces a
missing (`none`), `None`, or empty (falsy) content by the empty dict. -/
def Response.init (status_code : Int)
    (content : Option (List (PyStr × PyStr))) : Response :=
  { status_code := status_code
    status_text := tableGet status_messages status_code (S "Unknown")
    content := match content with
      | none => []
      | some c => if c.isEmpty then [] else c }

/-- `response.py`, `Response.to_http_response`: status line, the single
`Content-Type` header, blank line, JSON body. -/
def Response.to_http_response (r : Response) : PyStr :=
  S "HTTP/1.1 " ++ intStr r.status_code ++ ' ' :: r.status_text ++
    S "\r\nContent-Type: application/json\r\n\r\n" ++ jsonDumps r.content

/-- `route.py`: the `Route` class (`handler` is called with the parsed
`Request` by `server.py`). -/
structure Route where
  method : PyStr
  path : PyStr
  handler : Request → Response

/-- `route.py`, `Route.matches`: exact equality on method and path. -/
def Route.matches (r : Route) (method path : PyStr) : Bool :=
  r.method == method && r.path == path

/-- `server.py`, the `for route in self.routes` scan: the first route
whose `matches` succeeds, in registration order. -/
def findRoute : List Route → PyStr → PyStr → Option Route
  | [], _, _ => none
  | r :: rs, m, p => if r.matches m p then some r else findRoute rs m p

/-- `server.py`: the Content-Type guard condition
`'Content-Type' in request.headers and request.headers['Content-Type'] != 'application/json'`. -/
def ctGuardFails (req : Request) : Bool :=
  match dictGet? req.headers (S "Content-Type") with
  | some v => v != S "application/json"
  | none => false

/-- `server.py`: the authorization guard condition
`self.auth_handler and not self.auth_handler(request.headers)` (`None`
is falsy, a function is truthy). -/
def authDenies (auth : Option (List (PyStr × PyStr) → Bool))
    (headers : List (PyStr × PyStr)) : Bool :=
  match auth with
  | some f => !f headers
  | none => false

/-- `server.py`: route lookup and the 404 fallback at the end of
`handle_request`. -/
def dispatch (routes : List Route) (req : Request) : Response :=
  match findRoute routes req.method req.path with
  | some r => r.handler req
  | none => Response.init 404 (some [(S "error", S "Route not found")])

/-- `server.py`, `handle_request` after the Content-Type guard:
authorization check, then route dispatch. -/
def afterContentTypeGuard (routes : List Route)
    (auth : Option (List (PyStr × PyStr) → Bool)) (req : Request) : Response :=
  if authDenies auth req.headers then
    Response.init 403 (some [(S "error", S "Forbidden")])
  else dispatch routes req

/-- `server.py`, `Server.handle_request`, from the parsed `Request` to
the `Response` sent back: Content-Type guard, authorization guard, route
scan, 404 fallback. -/
def handle_request (routes : List Route)
    (auth : Option (List (PyStr × PyStr) → Bool)) (req : Request) : Response :=
  if ctGuardFails req then
    Response.init 400 (some [(S "error", S "Invalid Content-Type")])
  else afterContentTypeGuard routes auth req

/-- Modelled from the spec: the status table the specification describes
(`{200: OK, 400: Bad Request, 403: Forbidden, 404: Not Found}`), which is
not the table `response.py` actually declares — `server.py` declares this
exact table as `STATUS_MESSAGES`, but `Response` never consults it. -/
def spec_status_messages : List (Int × PyStr) :=
  [(200, S "OK"), (400, S "Bad Request"), (403, S "Forbidden"),
   (404, S "Not Found")]

/-- The numeric value of a hexadecimal digit character. -/
def hexVal? (c : Char) : Option Nat :=
  if 48 ≤ c.toNat ∧ c.toNat ≤ 57 then some (c.toNat - 48)
  else if 97 ≤ c.toNat ∧ c.toNat ≤ 102 then some (c.toNat - 87)
  else if 65 ≤ c.toNat ∧ c.toNat ≤ 70 then some (c.toNat - 55)
  else none

/-- Four hexadecimal digits and the rest of the input. -/
def parse4Hex : PyStr → Option (Nat × PyStr)
  | a :: b :: c :: d :: rest =>
    match hexVal? a, hexVal? b, hexVal? c, hexVal? d with
    | some va, some vb, some vc, some vd =>
      some (((va * 16 + vb) * 16 + vc) * 16 + vd, rest)
    | _, _, _, _ => none
  | _ => none

/-- Decode one JSON string escape (the part after the backslash), as
`json.loads` does: the named escapes, `\uXXXX`, and a surrogate pair
`\uD…\uD…` combined into one character beyond `0xffff`.  A lone
surrogate is rejected (`Char` cannot represent it). -/
def parseEscape : PyStr → Option (Char × PyStr)
  | [] => none
  | e :: rest =>
    if e = '"' then some ('"', rest)
    else if e = '\\' then some ('\\', rest)
    else if e = '/' then some ('/', rest)
    else if e = 'b' then some (Char.ofNat 8, rest)
    else if e = 'f' then some (Char.ofNat 12, rest)
    else if e = 'n' then some (Char.ofNat 10, rest)
    else if e = 'r' then some (Char.ofNat 13, rest)
    else if e = 't' then some (Char.ofNat 9, rest)
    else if e = 'u' then
      match parse4Hex rest with
      | some (n, r1) =>
        if 55296 ≤ n ∧ n ≤ 56319 then
          match r1 with
          | '\\' :: 'u' :: r2 =>
            match parse4Hex r2 with
            | some (m, r3) =>
              if 56320 ≤ m ∧ m ≤ 57343 then
                some (Char.ofNat (65536 + (n - 55296) * 1024 + (m - 56320)), r3)
              else none
            | none => none
          | _ => none
        else if 56320 ≤ n ∧ n ≤ 57343 then none
        else some (Char.ofNat n, r1)
      | none => none
    else none

/-- Decode a JSON string body up to its closing quote, returning the
decoded characters and the input after the quote.  `fuel` bounds the
recursion (any `fuel` larger than the string body suffices). -/
def parseStringBody : Nat → PyStr → Option (PyStr × PyStr)
  | 0, _ => none
  | _ + 1, [] => none
  | fuel + 1, c :: rest =>
    if c = '"' then some ([], rest)
    else if c = '\\' then
      match parseEscape rest with
      | some dr => (parseStringBody fuel dr.2).map (fun p => (dr.1 :: p.1, p.2))
      | none => none
    else (parseStringBody fuel rest).map (fun p => (c :: p.1, p.2))

/-- Parse one `"key": "value"` member (in the exact spacing `json.dumps`
emits). -/
def parsePair (fuel : Nat) (l : PyStr) : Option ((PyStr × PyStr) × PyStr) :=
  match l with
  | '"' :: r =>
    match parseStringBody fuel r with
    | some (k, r1) =>
      match r1 with
      | ':' :: ' ' :: '"' :: r2 =>
        match parseStringBody fuel r2 with
        | some (v, r3) => some ((k, v), r3)
        | none => none
      | _ => none
    | none => none
  | _ => none

/-- Parse a nonempty `", "`-separated list of members. -/
def parseMembers : Nat → PyStr → Option (List (PyStr × PyStr) × PyStr)
  | 0, _ => none
  | fuel + 1, l =>
    match parsePair (fuel + 1) l with
    | some (p, r) =>
      match r with
      | ',' :: ' ' :: r2 =>
        match parseMembers fuel r2 with
        | some (ps, r3) => some (p :: ps, r3)
        | none => none
      | _ => some ([p], r)
    | none => none

/-- Model of `json.loads` restricted to the flat string-to-string object
grammar `json.dumps` emits, as the ordered list of members. -/
def jsonLoads? (l : PyStr) : Option (List (PyStr × PyStr)) :=
  match l with
  | '{' :: r =>
    if r = ['}'] then some []
    else
      match parseMembers r.length r with
      | some (ps, ['}']) => some ps
      | _ => none
  | _ => none

/-- `json.loads` of an object builds a Python dict: insert the parsed
members in order (a repeated key keeps its last value). -/
def jsonLoadsDict (l : PyStr) : Option (List (PyStr × PyStr)) :=
  (jsonLoads? l).map pyDict

/-! ### Lemmas about the string primitives -/

theorem begWith_append_self (s z : PyStr) : begWith s (s ++ z) = true := by
  induction s with
  | nil => rfl
  | cons c s ih => simp [begWith, ih]

theorem begWith_head_ne {c s0 : Char} (h : c ≠ s0) (t r : PyStr) :
    begWith (s0 :: t) (c :: r) = false := by
  simp [begWith]
  intro he
  exact absurd he.symm h

theorem pySplit1NE_append {s0 : Char} {a : PyStr} (t z : PyStr)
    (h : ∀ c ∈ a, c ≠ s0) :
    pySplit1NE s0 t (a ++ z) =
      (pySplit1NE s0 t z).map (fun p => (a ++ p.1, p.2)) := by
  induction a with
  | nil =>
    rw [List.nil_append]
    cases he : pySplit1NE s0 t z <;> simp [he]
  | cons c a ih =>
    have hc : c ≠ s0 := h c (List.mem_cons_self c a)
    have ha : ∀ x ∈ a, x ≠ s0 := fun x hx => h x (List.mem_cons_of_mem c hx)
    rw [List.cons_append]
    simp only [pySplit1NE, begWith_head_ne hc, if_false, ih ha]
    cases pySplit1NE s0 t z <;> simp

theorem pySplit1NE_at (s0 : Char) (t z : PyStr) :
    pySplit1NE s0 t ((s0 :: t) ++ z) = some ([], z) := by
  rw [List.cons_append]
  simp only [pySplit1NE]
  rw [show s0 :: (t ++ z) = (s0 :: t) ++ z from rfl, begWith_append_self]
  simp [List.drop_left]

theorem pySplitListNE_ne_nil (s0 : Char) (t l : PyStr) :
    pySplitListNE s0 t l ≠ [] := by
  cases l with
  | nil => simp [pySplitListNE]
  | cons c rest =>
    rw [pySplitListNE]
    split
    · simp
    · split <;> simp

theorem pySplitListNE_append {s0 : Char} {a : PyStr} (t z : PyStr)
    (h : ∀ c ∈ a, c ≠ s0) :
    pySplitListNE s0 t (a ++ z) =
      (a ++ (pySplitListNE s0 t z).headD []) :: (pySplitListNE s0 t z).tail := by
  induction a with
  | nil =>
    rcases he : pySplitListNE s0 t z with _ | ⟨s, ss⟩
    · exact absurd he (pySplitListNE_ne_nil s0 t z)
    · simp [he]
  | cons c a ih =>
    have hc : c ≠ s0 := h c (List.mem_cons_self c a)
    have ha : ∀ x ∈ a, x ≠ s0 := fun x hx => h x (List.mem_cons_of_mem c hx)
    rw [List.cons_append, pySplitListNE]
    rw [begWith_head_ne hc]
    simp [ih ha]

theorem pySplitListNE_at (s0 : Char) (t z : PyStr) :
    pySplitListNE s0 t ((s0 :: t) ++ z) = [] :: pySplitListNE s0 t z := by
  rw [List.cons_append, pySplitListNE]
  rw [show s0 :: (t ++ z) = (s0 :: t) ++ z from rfl, begWith_append_self]
  simp [List.drop_left]

theorem pySplitListNE_noOcc {s0 : Char} {a : PyStr} (t : PyStr)
    (h : ∀ c ∈ a, c ≠ s0) :
    pySplitListNE s0 t a = [a] := by
  have := pySplitListNE_append t [] h
  simpa [pySplitListNE] using this

theorem pySplitListNE_join {s0 : Char} (t : PyStr) (ls : List PyStr)
    (hne : ls ≠ []) (h : ∀ l ∈ ls, ∀ c ∈ l, c ≠ s0) :
    pySplitListNE s0 t (joinWith (s0 :: t) ls) = ls := by
  induction ls with
  | nil => exact absurd rfl hne
  | cons a ls ih =>
    cases ls with
    | nil =>
      exact pySplitListNE_noOcc t (h a (List.mem_cons_self a []))
    | cons b ls' =>
      have ha : ∀ c ∈ a, c ≠ s0 := h a (List.mem_cons_self _ _)
      have hrest : ∀ l ∈ b :: ls', ∀ c ∈ l, c ≠ s0 :=
        fun l hl => h l (List.mem_cons_of_mem a hl)
      rw [joinWith, List.append_assoc, pySplitListNE_append t _ ha,
        pySplitListNE_at, ih (by simp) hrest]
      simp

theorem pySplit1_blankSep (ls : List PyStr) (body : PyStr) (hne : ls ≠ [])
    (h : ∀ l ∈ ls, l ≠ [] ∧ ∀ c ∈ l, c ≠ '\r') :
    pySplit1NE '\r' ['\n', '\r', '\n'] (joinWith crlf ls ++ (blankSep ++ body)) =
      some (joinWith crlf ls, body) := by
  induction ls with
  | nil => exact absurd rfl hne
  | cons a ls ih =>
    have ha : ∀ c ∈ a, c ≠ '\r' := (h a (List.mem_cons_self a ls)).2
    cases ls with
    | nil =>
      rw [show joinWith crlf [a] = a from rfl]
      rw [pySplit1NE_append _ _ ha]
      rw [show blankSep ++ body = ('\r' :: ['\n', '\r', '\n']) ++ body from rfl]
      rw [pySplit1NE_at]
      simp
    | cons b ls' =>
      have hb := h b (List.mem_cons_of_mem a (List.mem_cons_self b ls'))
      obtain ⟨b0, brest, hbe⟩ : ∃ b0 brest, b = b0 :: brest := by
        cases b with
        | nil => exact absurd rfl hb.1
        | cons x xs => exact ⟨x, xs, rfl⟩
      have hb0 : b0 ≠ '\r' := by
        have hm := hb.2 b0
        rw [hbe] at hm
        exact hm (List.mem_cons_self b0 brest)
      have hrest : ∀ l ∈ b :: ls', l ≠ [] ∧ ∀ c ∈ l, c ≠ '\r' :=
        fun l hl => h l (List.mem_cons_of_mem a hl)
      have hIH := ih (by simp) hrest
      obtain ⟨jr, hjr⟩ : ∃ jr, joinWith crlf (b :: ls') = b0 :: jr := by
        cases ls' with
        | nil => exact ⟨brest, by rw [hbe]; rfl⟩
        | cons c cs =>
          refine ⟨brest ++ crlf ++ joinWith crlf (c :: cs), ?_⟩
          rw [joinWith, hbe]
          simp
      have hstep : pySplit1NE '\r' ['\n', '\r', '\n']
          (crlf ++ (joinWith crlf (b :: ls') ++ (blankSep ++ body))) =
          some (crlf ++ joinWith crlf (b :: ls'), body) := by
        rw [hjr]
        rw [show crlf ++ (b0 :: jr ++ (blankSep ++ body)) =
            '\r' :: '\n' :: b0 :: (jr ++ (blankSep ++ body)) from by simp [crlf]]
        rw [pySplit1NE]
        rw [show begWith ('\r' :: ['\n', '\r', '\n'])
            ('\r' :: '\n' :: b0 :: (jr ++ (blankSep ++ body))) = false from by
          simp [begWith, Ne.symm hb0]]
        simp only [Bool.false_eq_true, if_false]
        rw [pySplit1NE]
        rw [show begWith ('\r' :: ['\n', '\r', '\n'])
            ('\n' :: b0 :: (jr ++ (blankSep ++ body))) = false from rfl]
        simp only [Bool.false_eq_true, if_false]
        rw [show b0 :: (jr ++ (blankSep ++ body)) = (b0 :: jr) ++ (blankSep ++ body)
          from rfl]
        rw [← hjr, hIH]
        simp [crlf]
      rw [joinWith, List.append_assoc, List.append_assoc,
        pySplit1NE_append _ _ ha, hstep]
      simp

theorem pySplitWsAux_token (a : PyStr) (hnw : ∀ c ∈ a, pyIsSpace c = false) :
    ∀ rest acc, pySplitWsAux (a ++ rest) acc = pySplitWsAux rest (a.reverse ++ acc) := by
  induction a with
  | nil => intro rest acc; simp
  | cons c a ih =>
    intro rest acc
    have hc : pyIsSpace c = false := hnw c (List.mem_cons_self c a)
    have ha : ∀ x ∈ a, pyIsSpace x = false :=
      fun x hx => hnw x (List.mem_cons_of_mem c hx)
    rw [List.cons_append, pySplitWsAux, hc]
    simp only [Bool.false_eq_true, if_false]
    rw [ih ha]
    simp

theorem pySplitWsAux_single (a : PyStr) (hne : a ≠ [])
    (hnw : ∀ c ∈ a, pyIsSpace c = false) : pySplitWsAux a [] = [a] := by
  have := pySplitWsAux_token a hnw [] []
  rw [List.append_nil] at this
  rw [this, pySplitWsAux]
  have : a.reverse.isEmpty = false := by
    cases hr : a.reverse with
    | nil => exact absurd (List.reverse_eq_nil_iff.mp hr) hne
    | cons x xs => rfl
  simp [this]

theorem pySplitWsAux_tokenSpace (a rest : PyStr) (hne : a ≠ [])
    (hnw : ∀ c ∈ a, pyIsSpace c = false) :
    pySplitWsAux (a ++ ' ' :: rest) [] = a :: pySplitWsAux rest [] := by
  rw [pySplitWsAux_token a hnw, List.append_nil, pySplitWsAux]
  have hsp : pyIsSpace ' ' = true := rfl
  have hrev : a.reverse.isEmpty = false := by
    cases hr : a.reverse with
    | nil => exact absurd (List.reverse_eq_nil_iff.mp hr) hne
    | cons x xs => rfl
  simp [hsp, hrev]

theorem pySplitWs_three {m p v : PyStr}
    (hm : m ≠ []) (hp : p ≠ []) (hv : v ≠ [])
    (hmw : ∀ c ∈ m, pyIsSpace c = false) (hpw : ∀ c ∈ p, pyIsSpace c = false)
    (hvw : ∀ c ∈ v, pyIsSpace c = false) :
    pySplitWs (m ++ ' ' :: (p ++ ' ' :: v)) = [m, p, v] := by
  unfold pySplitWs
  rw [pySplitWsAux_tokenSpace m _ hm hmw, pySplitWsAux_tokenSpace p _ hp hpw,
    pySplitWsAux_single v hv hvw]

theorem pySplit1_colon (k v : PyStr) (hk : ∀ c ∈ k, c ≠ ':') :
    pySplit1NE ':' [' '] (k ++ ':' :: ' ' :: v) = some (k, v) := by
  rw [show k ++ ':' :: ' ' :: v = k ++ ((':' :: [' ']) ++ v) from by simp]
  rw [pySplit1NE_append _ _ hk, pySplit1NE_at]
  simp

/-! ### Lemmas about the dict model -/

theorem find?_key_map_update (d : List (PyStr × PyStr)) (k v : PyStr)
    (hex : ∃ q ∈ d, q.1 = k) :
    (d.map (fun p => if p.1 == k then (k, v) else p)).find? (fun p => p.1 == k)
      = some (k, v) := by
  induction d with
  | nil => simp at hex
  | cons p d ih =>
    rw [List.map_cons]
    by_cases hpk : p.1 = k
    · rw [if_pos (by simpa using hpk)]
      exact List.find?_cons_of_pos _ (by simp)
    · rw [if_neg (by simpa using hpk)]
      rw [List.find?_cons_of_neg _ (by simpa using hpk)]
      apply ih
      rcases hex with ⟨q, hq, hqk⟩
      rcases List.mem_cons.mp hq with he | he
      · exact absurd (he ▸ hqk) hpk
      · exact ⟨q, he, hqk⟩

theorem find?_other_map_update (d : List (PyStr × PyStr)) (k v k' : PyStr)
    (hk : k ≠ k') :
    (d.map (fun p => if p.1 == k then (k, v) else p)).find? (fun p => p.1 == k')
      = d.find? (fun p => p.1 == k') := by
  induction d with
  | nil => rfl
  | cons p d ih =>
    rw [List.map_cons]
    by_cases hpk : p.1 = k
    · rw [if_pos (by simpa using hpk)]
      rw [List.find?_cons_of_neg _ (by simpa using hk)]
      rw [List.find?_cons_of_neg _ (by simp [hpk]; exact hk)]
      exact ih
    · rw [if_neg (by simpa using hpk)]
      by_cases hpk' : p.1 = k'
      · rw [List.find?_cons_of_pos _ (by simpa using hpk'),
          List.find?_cons_of_pos _ (by simpa using hpk')]
      · rw [List.find?_cons_of_neg _ (by simpa using hpk'),
          List.find?_cons_of_neg _ (by simpa using hpk')]
        exact ih

theorem dictGet?_insert (d : List (PyStr × PyStr)) (k v k' : PyStr) :
    dictGet? (dictInsert d k v) k' =
      if k = k' then some v else dictGet? d k' := by
  unfold dictGet? dictInsert
  by_cases hany : (d.any fun p => p.1 == k) = true
  · rw [if_pos hany]
    have hex : ∃ q ∈ d, q.1 = k := by
      rw [List.any_eq_true] at hany
      obtain ⟨q, hq, hqk⟩ := hany
      exact ⟨q, hq, by simpa using hqk⟩
    by_cases hk : k = k'
    · subst hk
      rw [find?_key_map_update d k v hex, if_pos rfl]
      rfl
    · rw [find?_other_map_update d k v k' hk, if_neg hk]
  · rw [if_neg hany]
    rw [List.find?_append]
    have hnone : d.find? (fun p => p.1 == k) = none := by
      rw [List.find?_eq_none]
      intro x hx hpk
      rw [List.any_eq_true] at hany
      exact hany ⟨x, hx, hpk⟩
    by_cases hk : k = k'
    · subst hk
      rw [hnone, List.find?_cons_of_pos _ (by simp)]
      simp
    · rw [show List.find? (fun p => p.1 == k') [(k, v)] = none from by
        rw [List.find?_cons_of_neg _ (by simpa using hk)]; rfl]
      rw [if_neg hk]
      cases hd : d.find? (fun p => p.1 == k') <;> simp

theorem dictGet?_foldl_insert (ps : List (PyStr × PyStr))
    (acc : List (PyStr × PyStr)) (k : PyStr) :
    dictGet? (ps.foldl (fun d p => dictInsert d p.1 p.2) acc) k =
      match ps.reverse.find? (fun p => p.1 == k) with
      | some p => some p.2
      | none => dictGet? acc k := by
  induction ps generalizing acc with
  | nil => rfl
  | cons q ps ih =>
    rw [List.foldl_cons, ih, List.reverse_cons, List.find?_append]
    cases hr : ps.reverse.find? (fun p => p.1 == k) with
    | some p => rfl
    | none =>
      by_cases hq : q.1 = k
      · rw [List.find?_cons_of_pos _ (by simpa using hq)]
        rw [dictGet?_insert, if_pos hq]
        rfl
      · rw [show List.find? (fun p => p.1 == k) [q] = none from by
          rw [List.find?_cons_of_neg _ (by simpa using hq)]; rfl]
        rw [dictGet?_insert, if_neg hq]
        rfl

/-- Looking a key up in the dict built from a pair list returns the value
of the key's last occurrence in the list. -/
theorem dictGet?_pyDict (ps : List (PyStr × PyStr)) (k : PyStr) :
    dictGet? (pyDict ps) k =
      (ps.reverse.find? (fun p => p.1 == k)).map (fun p => p.2) := by
  rw [pyDict, dictGet?_foldl_insert]
  cases ps.reverse.find? (fun p => p.1 == k) <;> rfl

theorem dictInsert_of_fresh (d : List (PyStr × PyStr)) (k v : PyStr)
    (h : ∀ q ∈ d, q.1 ≠ k) : dictInsert d k v = d ++ [(k, v)] := by
  unfold dictInsert
  rw [if_neg ?_]
  simp only [List.any_eq_true, not_exists, not_and]
  intro q hq
  simpa using h q hq

theorem foldl_insert_of_nodup (ps : List (PyStr × PyStr)) :
    ∀ acc : List (PyStr × PyStr),
      ((acc ++ ps).map (fun p => p.1)).Nodup →
      ps.foldl (fun d p => dictInsert d p.1 p.2) acc = acc ++ ps := by
  induction ps with
  | nil => intro acc _; simp
  | cons q ps ih =>
    intro acc hnd
    have hfresh : ∀ r ∈ acc, r.1 ≠ q.1 := by
      intro r hr he
      rw [List.map_append, List.nodup_append] at hnd
      exact hnd.2.2 (List.mem_map_of_mem _ hr)
        (by rw [he]; exact List.mem_map_of_mem _ (List.mem_cons_self q ps))
    rw [List.foldl_cons, dictInsert_of_fresh acc q.1 q.2 hfresh]
    have hnd' : (((acc ++ [q]) ++ ps).map (fun p => p.1)).Nodup := by
      rw [List.append_assoc]
      simpa using hnd
    rw [show acc ++ q :: ps = (acc ++ [q]) ++ ps from by simp]
    exact ih (acc ++ [q]) hnd'

/-- Building a Python dict from a pair list with pairwise distinct keys
returns exactly that list. -/
theorem pyDict_of_nodup (ps : List (PyStr × PyStr))
    (h : (ps.map (fun p => p.1)).Nodup) : pyDict ps = ps := by
  have := foldl_insert_of_nodup ps [] (by simpa using h)
  simpa [pyDict] using this

theorem foldl_header_lines (hdrs : List (PyStr × PyStr))
    (hk : ∀ p ∈ hdrs, ∀ c ∈ p.1, c ≠ ':') :
    ∀ acc, (hdrs.map (fun p => p.1 ++ ':' :: ' ' :: p.2)).foldl
        (fun d line => match pySplit1NE ':' [' '] line with
          | some kv => dictInsert d kv.1 kv.2
          | none => d) acc
      = hdrs.foldl (fun d p => dictInsert d p.1 p.2) acc := by
  induction hdrs with
  | nil => intro acc; rfl
  | cons q hdrs ih =>
    intro acc
    rw [List.map_cons, List.foldl_cons, List.foldl_cons]
    simp only [pySplit1_colon q.1 q.2 (fun c hc =>
      hk q (List.mem_cons_self q hdrs) c hc)]
    exact ih (fun p hp => hk p (List.mem_cons_of_mem _ hp)) _

theorem ne_cr_of_not_space {c : Char} (h : pyIsSpace c = false) : c ≠ '\r' := by
  intro he
  rw [he] at h
  exact absurd h (by decide)

/-- A well-formed raw HTTP request assembled from a three-token request
line, `key: value` header lines, the blank-line separator, and a body. -/
def rawRequest (method path version : PyStr) (hdrs : List (PyStr × PyStr))
    (body : PyStr) : PyStr :=
  joinWith crlf ((method ++ ' ' :: (path ++ ' ' :: version)) ::
    hdrs.map (fun p => p.1 ++ ':' :: ' ' :: p.2)) ++ (blankSep ++ body)

theorem from_raw_wellFormed (method path version : PyStr)
    (hdrs : List (PyStr × PyStr)) (body : PyStr)
    (hm : method ≠ []) (hp : path ≠ []) (hv : version ≠ [])
    (hmw : ∀ c ∈ method, pyIsSpace c = false)
    (hpw : ∀ c ∈ path, pyIsSpace c = false)
    (hvw : ∀ c ∈ version, pyIsSpace c = false)
    (hh : ∀ p ∈ hdrs, (∀ c ∈ p.1, c ≠ ':' ∧ c ≠ '\r') ∧ (∀ c ∈ p.2, c ≠ '\r')) :
    Request.from_raw (rawRequest method path version hdrs body) =
      { method := method, path := path, headers := pyDict hdrs, body := body } := by
  have hrlw : ∀ c ∈ method ++ ' ' :: (path ++ ' ' :: version), c ≠ '\r' := by
    intro c hc
    rcases List.mem_append.mp hc with h1 | h1
    · exact ne_cr_of_not_space (hmw c h1)
    · rcases List.mem_cons.mp h1 with h2 | h2
      · rw [h2]; decide
      · rcases List.mem_append.mp h2 with h3 | h3
        · exact ne_cr_of_not_space (hpw c h3)
        · rcases List.mem_cons.mp h3 with h4 | h4
          · rw [h4]; decide
          · exact ne_cr_of_not_space (hvw c h4)
  have hlines : ∀ l ∈ (method ++ ' ' :: (path ++ ' ' :: version)) ::
      hdrs.map (fun p => p.1 ++ ':' :: ' ' :: p.2),
      l ≠ [] ∧ ∀ c ∈ l, c ≠ '\r' := by
    intro l hl
    rcases List.mem_cons.mp hl with h1 | h1
    · subst h1
      refine ⟨?_, hrlw⟩
      cases method with
      | nil => exact absurd rfl hm
      | cons x xs => simp
    · obtain ⟨q, hq, hqe⟩ := List.mem_map.mp h1
      subst hqe
      constructor
      · cases hq1 : q.1 <;> simp
      · intro c hc
        rcases List.mem_append.mp hc with h2 | h2
        · exact (hh q hq).1 c h2 |>.2
        · rcases List.mem_cons.mp h2 with h3 | h3
          · rw [h3]; decide
          · rcases List.mem_cons.mp h3 with h4 | h4
            · rw [h4]; decide
            · exact (hh q hq).2 c h4
  have hsplit := pySplit1_blankSep _ body (by simp) hlines
  have hlist := @pySplitListNE_join '\r' ['\n']
    ((method ++ ' ' :: (path ++ ' ' :: version)) ::
      hdrs.map (fun p => p.1 ++ ':' :: ' ' :: p.2)) (by simp)
    (fun l hl => (hlines l hl).2)
  rw [show (['\r', '\n'] : PyStr) = crlf from rfl] at hlist
  rw [Request.from_raw, rawRequest, hsplit]
  simp only [hlist, pySplitWs_three hm hp hv hmw hpw hvw]
  rw [foldl_header_lines hdrs (fun p hp' c hc => ((hh p hp').1 c hc).1) []]
  rfl

/-! ### Lemmas about JSON serialization and parsing -/

theorem charValidRange (c : Char) :
    c.toNat < 55296 ∨ (57343 < c.toNat ∧ c.toNat < 1114112) := c.valid

theorem toNat_ofNat_valid {n : Nat} (h : n.isValidChar) :
    (Char.ofNat n).toNat = n := by
  unfold Char.ofNat
  rw [dif_pos h]
  rfl

theorem hexVal_hexDigitChar : ∀ k < 16, hexVal? (hexDigitChar k) = some k := by
  decide

theorem parse4Hex_uEscDigits (n : Nat) (h : n < 65536) (rest : PyStr) :
    parse4Hex (uEscDigits n ++ rest) = some (n, rest) := by
  have h3 := hexVal_hexDigitChar (n / 4096 % 16) (Nat.mod_lt _ (by omega))
  have h2 := hexVal_hexDigitChar (n / 256 % 16) (Nat.mod_lt _ (by omega))
  have h1 := hexVal_hexDigitChar (n / 16 % 16) (Nat.mod_lt _ (by omega))
  have h0 := hexVal_hexDigitChar (n % 16) (Nat.mod_lt _ (by omega))
  show parse4Hex (hexDigitChar (n / 4096 % 16) :: hexDigitChar (n / 256 % 16) ::
    hexDigitChar (n / 16 % 16) :: hexDigitChar (n % 16) :: rest) = some (n, rest)
  simp only [parse4Hex, h3, h2, h1, h0]
  have he : ((n / 4096 % 16 * 16 + n / 256 % 16) * 16 + n / 16 % 16) * 16 + n % 16
      = n := by omega
  rw [he]

theorem one_le_escapeChar_length (c : Char) : 1 ≤ (escapeChar c).length := by
  unfold escapeChar
  split_ifs <;> simp [uEsc, uEscDigits]

theorem parseEscape_escapeChar (c : Char) :
    (escapeChar c = [c] ∧ c ≠ '"' ∧ c ≠ '\\') ∨
    (∃ tl, escapeChar c = '\\' :: tl ∧
      ∀ rest, parseEscape (tl ++ rest) = some (c, rest)) := by
  by_cases h1 : c = '"'
  · subst h1
    exact Or.inr ⟨['"'], rfl, fun rest => rfl⟩
  by_cases h2 : c = '\\'
  · subst h2
    exact Or.inr ⟨['\\'], rfl, fun rest => rfl⟩
  by_cases h3 : c = Char.ofNat 8
  · subst h3
    exact Or.inr ⟨['b'], rfl, fun rest => rfl⟩
  by_cases h4 : c = Char.ofNat 9
  · subst h4
    exact Or.inr ⟨['t'], rfl, fun rest => rfl⟩
  by_cases h5 : c = Char.ofNat 10
  · subst h5
    exact Or.inr ⟨['n'], rfl, fun rest => rfl⟩
  by_cases h6 : c = Char.ofNat 12
  · subst h6
    exact Or.inr ⟨['f'], rfl, fun rest => rfl⟩
  by_cases h7 : c = Char.ofNat 13
  · subst h7
    exact Or.inr ⟨['r'], rfl, fun rest => rfl⟩
  by_cases h8 : c.toNat < 32 ∨ 126 < c.toNat
  · right
    by_cases h9 : c.toNat < 65536
    · refine ⟨'u' :: uEscDigits c.toNat, ?_, ?_⟩
      · simp only [escapeChar, if_neg h1, if_neg h2, if_neg h3, if_neg h4,
          if_neg h5, if_neg h6, if_neg h7, if_pos h8, if_pos h9]
        rfl
      · intro rest
        have hnotsur : ¬(55296 ≤ c.toNat ∧ c.toNat ≤ 56319) ∧
            ¬(56320 ≤ c.toNat ∧ c.toNat ≤ 57343) := by
          rcases charValidRange c with hr | hr <;> omega
        rw [show ('u' :: uEscDigits c.toNat) ++ rest =
          'u' :: (uEscDigits c.toNat ++ rest) from rfl]
        simp only [parseEscape, parse4Hex_uEscDigits c.toNat h9 rest]
        rw [if_neg hnotsur.1, if_neg hnotsur.2, Char.ofNat_toNat]
        simp
    · have hval := charValidRange c
      have hhi : c.toNat < 1114112 := by rcases hval with hr | hr <;> omega
      set q := (c.toNat - 65536) / 1024 with hq
      set r := (c.toNat - 65536) % 1024 with hr
      have hqlt : q < 1024 := by
        rw [hq]; omega
      have hrlt : r < 1024 := by
        rw [hr]; omega
      refine ⟨'u' :: (uEscDigits (55296 + q) ++ ('\\' :: 'u' :: uEscDigits (56320 + r))), ?_, ?_⟩
      · simp only [escapeChar, if_neg h1, if_neg h2, if_neg h3, if_neg h4,
          if_neg h5, if_neg h6, if_neg h7, if_pos h8, if_neg h9]
        simp [uEsc, hq, hr]
      · intro rest
        rw [show ('u' :: (uEscDigits (55296 + q) ++ ('\\' :: 'u' :: uEscDigits (56320 + r)))) ++ rest =
          'u' :: (uEscDigits (55296 + q) ++ (('\\' :: 'u' :: uEscDigits (56320 + r)) ++ rest)) from by simp]
        have hp1 : parse4Hex (uEscDigits (55296 + q) ++
            (('\\' :: 'u' :: uEscDigits (56320 + r)) ++ rest)) =
            some (55296 + q, ('\\' :: 'u' :: uEscDigits (56320 + r)) ++ rest) :=
          parse4Hex_uEscDigits _ (by omega) _
        have hp2 : parse4Hex (uEscDigits (56320 + r) ++ rest) =
            some (56320 + r, rest) := parse4Hex_uEscDigits _ (by omega) _
        simp only [parseEscape, hp1]
        rw [if_pos (show 55296 ≤ 55296 + q ∧ 55296 + q ≤ 56319 from by omega)]
        have harg : 65536 + (55296 + q - 55296) * 1024 + (56320 + r - 56320)
            = c.toNat := by
          rw [hq, hr]; omega
        simp [hp2, if_pos (show 56320 ≤ 56320 + r ∧ 56320 + r ≤ 57343 from by omega),
          harg]
        refine ⟨by omega, ?_⟩
        have hc : 65536 + q * 1024 + r = c.toNat := by rw [hq, hr]; omega
        rw [hc, Char.ofNat_toNat]
  · left
    refine ⟨?_, h1, h2⟩
    simp only [escapeChar, if_neg h1, if_neg h2, if_neg h3, if_neg h4,
      if_neg h5, if_neg h6, if_neg h7, if_neg h8]

theorem escapeStr_cons (c : Char) (s : PyStr) :
    escapeStr (c :: s) = escapeChar c ++ escapeStr s := rfl

theorem parseStringBody_escapeStr (s : PyStr) :
    ∀ fuel rest, (escapeStr s).length < fuel →
      parseStringBody fuel (escapeStr s ++ '"' :: rest) = some (s, rest) := by
  induction s with
  | nil =>
    intro fuel rest hf
    cases fuel with
    | zero => omega
    | succ f => rfl
  | cons c s ih =>
    intro fuel rest hf
    rw [escapeStr_cons] at hf ⊢
    have hle := one_le_escapeChar_length c
    rcases parseEscape_escapeChar c with ⟨he, hq, hb⟩ | ⟨tl, he, hp⟩
    · rw [he] at hf ⊢
      cases fuel with
      | zero => simp at hf
      | succ f =>
        rw [show ([c] ++ escapeStr s) ++ '"' :: rest =
          c :: (escapeStr s ++ '"' :: rest) from by simp]
        rw [parseStringBody, if_neg hq, if_neg hb]
        rw [ih f rest (by simp at hf; omega)]
        rfl
    · rw [he] at hf ⊢
      cases fuel with
      | zero => simp at hf
      | succ f =>
        rw [show (('\\' :: tl) ++ escapeStr s) ++ '"' :: rest =
          '\\' :: (tl ++ (escapeStr s ++ '"' :: rest)) from by simp]
        rw [parseStringBody, if_neg (by decide), if_pos rfl]
        rw [hp (escapeStr s ++ '"' :: rest)]
        show Option.map (fun p => (c :: p.1, p.2))
          (parseStringBody f (escapeStr s ++ '"' :: rest)) = some (c :: s, rest)
        rw [ih f rest (by simp at hf; omega)]
        rfl

theorem serializeMember_eq (k v : PyStr) :
    serializeMember (k, v) =
      '"' :: (escapeStr k ++ '"' :: ':' :: ' ' :: '"' :: (escapeStr v ++ ['"'])) := by
  simp [serializeMember]

theorem parsePair_serializeMember (k v : PyStr) (rest : PyStr) (fuel : Nat)
    (hk : (escapeStr k).length < fuel) (hv : (escapeStr v).length < fuel) :
    parsePair fuel (serializeMember (k, v) ++ rest) = some ((k, v), rest) := by
  rw [serializeMember_eq]
  rw [show ('"' :: (escapeStr k ++ '"' :: ':' :: ' ' :: '"' :: (escapeStr v ++ ['"']))) ++ rest =
    '"' :: (escapeStr k ++ '"' :: (':' :: ' ' :: '"' :: (escapeStr v ++ '"' :: rest)))
    from by simp]
  rw [parsePair]
  rw [parseStringBody_escapeStr k fuel _ hk]
  show (match parseStringBody fuel (escapeStr v ++ '"' :: rest) with
    | some (w, r3) => some ((k, w), r3)
    | none => none) = some ((k, v), rest)
  rw [parseStringBody_escapeStr v fuel rest hv]

theorem serializeMember_length (k v : PyStr) :
    (serializeMember (k, v)).length =
      (escapeStr k).length + (escapeStr v).length + 6 := by
  simp [serializeMember]
  omega

theorem parseMembers_joinMembers (ps : List (PyStr × PyStr)) :
    ∀ (p : PyStr × PyStr) (fuel : Nat), (joinMembers (p :: ps)).length < fuel →
      parseMembers fuel (joinMembers (p :: ps) ++ ['}']) = some (p :: ps, ['}']) := by
  induction ps with
  | nil =>
    intro p fuel hf
    obtain ⟨k, v⟩ := p
    cases fuel with
    | zero => omega
    | succ f =>
      rw [show joinMembers [(k, v)] = serializeMember (k, v) from rfl] at hf ⊢
      rw [serializeMember_length] at hf
      rw [parseMembers]
      rw [parsePair_serializeMember k v ['}'] (f + 1) (by omega) (by omega)]
      rfl
  | cons q ps ih =>
    intro p fuel hf
    obtain ⟨k, v⟩ := p
    cases fuel with
    | zero => omega
    | succ f =>
      rw [show joinMembers ((k, v) :: q :: ps) =
        serializeMember (k, v) ++ ',' :: ' ' :: joinMembers (q :: ps) from rfl]
        at hf ⊢
      simp only [List.length_append, List.length_cons] at hf
      rw [serializeMember_length] at hf
      rw [show (serializeMember (k, v) ++ ',' :: ' ' :: joinMembers (q :: ps)) ++ ['}'] =
        serializeMember (k, v) ++ (',' :: ' ' :: (joinMembers (q :: ps) ++ ['}']))
        from by simp]
      rw [parseMembers]
      rw [parsePair_serializeMember k v _ (f + 1) (by omega) (by omega)]
      show (match parseMembers f (joinMembers (q :: ps) ++ ['}']) with
        | some (ps', r3) => some ((k, v) :: ps', r3)
        | none => none) = some ((k, v) :: q :: ps, ['}'])
      rw [ih q f (by omega)]

theorem joinMembers_cons_quote (p : PyStr × PyStr) (ps : List (PyStr × PyStr)) :
    ∃ t0, joinMembers (p :: ps) = '"' :: t0 := by
  obtain ⟨k, v⟩ := p
  cases ps with
  | nil => exact ⟨_, rfl⟩
  | cons q ps' =>
    refine ⟨escapeStr k ++ '"' :: ':' :: ' ' :: '"' :: escapeStr v ++ ['"'] ++
      ',' :: ' ' :: joinMembers (q :: ps'), ?_⟩
    rw [show joinMembers ((k, v) :: q :: ps') =
      serializeMember (k, v) ++ ',' :: ' ' :: joinMembers (q :: ps') from rfl]
    simp [serializeMember]

/-- Parsing the serialized object recovers exactly the member list. -/
theorem jsonLoads?_jsonDumps (d : List (PyStr × PyStr)) :
    jsonLoads? (jsonDumps d) = some d := by
  cases d with
  | nil => rfl
  | cons p ps =>
    obtain ⟨t0, ht⟩ := joinMembers_cons_quote p ps
    rw [jsonDumps]
    show (if joinMembers (p :: ps) ++ ['}'] = ['}'] then some []
      else
        match parseMembers (joinMembers (p :: ps) ++ ['}']).length
            (joinMembers (p :: ps) ++ ['}']) with
        | some (ps', ['}']) => some ps'
        | _ => none) = some (p :: ps)
    rw [if_neg (by rw [ht]; simp)]
    rw [parseMembers_joinMembers ps p _ (by simp)]
    rfl

/-- `json.loads` of the dumped dict recovers the dict itself when its
keys are pairwise distinct (as those of a Python dict always are). -/
theorem jsonLoadsDict_jsonDumps (d : List (PyStr × PyStr))
    (h : (d.map (fun p => p.1)).Nodup) :
    jsonLoadsDict (jsonDumps d) = some d := by
  rw [jsonLoadsDict, jsonLoads?_jsonDumps]
  simp [pyDict_of_nodup d h]

/-! ### No character of the serialized pieces is a carriage return -/

theorem char_ne_of_toNat_ne {a b : Char} (h : a.toNat ≠ b.toNat) : a ≠ b :=
  fun he => h (he ▸ rfl)

theorem hexDigitChar_ne_cr : ∀ k < 16, hexDigitChar k ≠ '\r' := by decide

theorem uEscDigits_ne_cr (n : Nat) : ∀ c ∈ uEscDigits n, c ≠ '\r' := by
  intro c hc
  simp only [uEscDigits, List.mem_cons, List.not_mem_nil, or_false] at hc
  rcases hc with h | h | h | h <;>
    (subst h; exact hexDigitChar_ne_cr _ (Nat.mod_lt _ (by omega)))

theorem uEsc_ne_cr (n : Nat) : ∀ c ∈ uEsc n, c ≠ '\r' := by
  intro c hc
  rcases List.mem_cons.mp hc with h | hc
  · subst h; decide
  rcases List.mem_cons.mp hc with h | hc
  · subst h; decide
  exact uEscDigits_ne_cr n c hc

theorem escapeChar_ne_cr (c : Char) : ∀ x ∈ escapeChar c, x ≠ '\r' := by
  intro x hx
  unfold escapeChar at hx
  split_ifs at hx with h1 h2 h3 h4 h5 h6 h7 h8 h9
  · rcases List.mem_cons.mp hx with h | hx
    · subst h; decide
    · simp at hx; subst hx; decide
  · rcases List.mem_cons.mp hx with h | hx
    · subst h; decide
    · simp at hx; subst hx; decide
  · rcases List.mem_cons.mp hx with h | hx
    · subst h; decide
    · simp at hx; subst hx; decide
  · rcases List.mem_cons.mp hx with h | hx
    · subst h; decide
    · simp at hx; subst hx; decide
  · rcases List.mem_cons.mp hx with h | hx
    · subst h; decide
    · simp at hx; subst hx; decide
  · rcases List.mem_cons.mp hx with h | hx
    · subst h; decide
    · simp at hx; subst hx; decide
  · rcases List.mem_cons.mp hx with h | hx
    · subst h; decide
    · simp at hx; subst hx; decide
  · exact uEsc_ne_cr _ x hx
  · rcases List.mem_append.mp hx with h | h
    · exact uEsc_ne_cr _ x h
    · exact uEsc_ne_cr _ x h
  · simp at hx
    subst hx
    push_neg at h8
    apply char_ne_of_toNat_ne
    have : ('\r').toNat = 13 := rfl
    omega

theorem escapeStr_ne_cr (s : PyStr) : ∀ x ∈ escapeStr s, x ≠ '\r' := by
  induction s with
  | nil => intro x hx; simp [escapeStr] at hx
  | cons c s ih =>
    intro x hx
    rw [escapeStr_cons] at hx
    rcases List.mem_append.mp hx with h | h
    · exact escapeChar_ne_cr c x h
    · exact ih x h

theorem serializeMember_ne_cr (p : PyStr × PyStr) :
    ∀ x ∈ serializeMember p, x ≠ '\r' := by
  intro x hx
  obtain ⟨k, v⟩ := p
  rw [serializeMember_eq] at hx
  rcases List.mem_cons.mp hx with h | hx
  · subst h; decide
  rcases List.mem_append.mp hx with h | hx
  · exact escapeStr_ne_cr k x h
  rcases List.mem_cons.mp hx with h | hx
  · subst h; decide
  rcases List.mem_cons.mp hx with h | hx
  · subst h; decide
  rcases List.mem_cons.mp hx with h | hx
  · subst h; decide
  rcases List.mem_cons.mp hx with h | hx
  · subst h; decide
  rcases List.mem_append.mp hx with h | hx
  · exact escapeStr_ne_cr v x h
  · simp at hx; subst hx; decide

theorem joinMembers_ne_cr (d : List (PyStr × PyStr)) :
    ∀ x ∈ joinMembers d, x ≠ '\r' := by
  induction d with
  | nil => intro x hx; simp [joinMembers] at hx
  | cons p d ih =>
    intro x hx
    cases d with
    | nil => exact serializeMember_ne_cr p x hx
    | cons q d' =>
      rw [show joinMembers (p :: q :: d') =
        serializeMember p ++ ',' :: ' ' :: joinMembers (q :: d') from rfl] at hx
      rcases List.mem_append.mp hx with h | hx
      · exact serializeMember_ne_cr p x h
      rcases List.mem_cons.mp hx with h | hx
      · subst h; decide
      rcases List.mem_cons.mp hx with h | hx
      · subst h; decide
      · exact ih x hx

theorem jsonDumps_ne_cr (d : List (PyStr × PyStr)) :
    ∀ x ∈ jsonDumps d, x ≠ '\r' := by
  intro x hx
  rw [jsonDumps] at hx
  rcases List.mem_cons.mp hx with h | hx
  · subst h; decide
  rcases List.mem_append.mp hx with h | hx
  · exact joinMembers_ne_cr d x h
  · simp at hx; subst hx; decide

theorem natDigits_range (n : Nat) :
    ∀ c ∈ natDigits n, 48 ≤ c.toNat ∧ c.toNat ≤ 57 := by
  induction n using Nat.strong_induction_on with
  | _ n ih =>
    intro c hc
    rw [natDigits] at hc
    by_cases h : n < 10
    · rw [if_pos h] at hc
      simp at hc
      subst hc
      have he : (Char.ofNat (48 + n)).toNat = 48 + n :=
        toNat_ofNat_valid (Or.inl (by omega))
      omega
    · rw [if_neg h] at hc
      rcases List.mem_append.mp hc with h1 | h1
      · exact ih (n / 10) (Nat.div_lt_self (by omega) (by omega)) c h1
      · simp at h1
        subst h1
        have hm : n % 10 < 10 := Nat.mod_lt _ (by omega)
        have he : (Char.ofNat (48 + n % 10)).toNat = 48 + n % 10 :=
          toNat_ofNat_valid (Or.inl (by omega))
        omega

theorem intStr_ne_cr (i : Int) : ∀ c ∈ intStr i, c ≠ '\r' := by
  intro c hc
  unfold intStr at hc
  split_ifs at hc
  · rcases List.mem_cons.mp hc with h | h
    · subst h; decide
    · have := natDigits_range _ c h
      apply char_ne_of_toNat_ne
      have he : ('\r').toNat = 13 := rfl
      omega
  · have := natDigits_range _ c hc
    apply char_ne_of_toNat_ne
    have he : ('\r').toNat = 13 := rfl
    omega

theorem statusText_cases (code : Int) :
    tableGet status_messages code (S "Unknown") = S "OK" ∨
    tableGet status_messages code (S "Unknown") = S "Bad Request" ∨
    tableGet status_messages code (S "Unknown") = S "Not Found" ∨
    tableGet status_messages code (S "Unknown") = S "Unknown" := by
  unfold tableGet status_messages
  by_cases h200 : code = 200
  · subst h200; simp
  by_cases h400 : code = 400
  · subst h400; simp [List.find?]
  by_cases h404 : code = 404
  · subst h404; simp [List.find?]
  · have f1 : ((200 : Int) == code) = false := by
      rw [beq_eq_false_iff_ne]; exact fun he => h200 he.symm
    have f2 : ((400 : Int) == code) = false := by
      rw [beq_eq_false_iff_ne]; exact fun he => h400 he.symm
    have f3 : ((404 : Int) == code) = false := by
      rw [beq_eq_false_iff_ne]; exact fun he => h404 he.symm
    simp [List.find?, f1, f2, f3]

theorem statusText_ne_cr (code : Int) :
    ∀ c ∈ tableGet status_messages code (S "Unknown"), c ≠ '\r' := by
  intro c hc
  rcases statusText_cases code with h | h | h | h <;>
    (rw [h] at hc; revert hc; revert c; decide)

/-- The wire form is exactly the CRLF-join of status line, Content-Type
header line, empty line, and JSON body. -/
theorem to_http_response_eq_join (r : Response) :
    Response.to_http_response r =
      joinWith crlf [S "HTTP/1.1 " ++ intStr r.status_code ++ ' ' :: r.status_text,
        S "Content-Type: application/json", [], jsonDumps r.content] := by
  rw [Response.to_http_response]
  rw [show S "\r\nContent-Type: application/json\r\n\r\n" =
    crlf ++ (S "Content-Type: application/json" ++ (crlf ++ crlf)) from rfl]
  rw [show joinWith crlf [S "HTTP/1.1 " ++ intStr r.status_code ++ ' ' :: r.status_text,
      S "Content-Type: application/json", [], jsonDumps r.content] =
    (S "HTTP/1.1 " ++ intStr r.status_code ++ ' ' :: r.status_text) ++ crlf ++
      (S "Content-Type: application/json" ++ crlf ++ ([] ++ crlf ++ jsonDumps r.content))
    from rfl]
  simp [List.append_assoc]

theorem http_lit_ne_cr : ∀ c ∈ S "HTTP/1.1 ", c ≠ '\r' := by decide

theorem ct_lit_ne_cr : ∀ c ∈ S "Content-Type: application/json", c ≠ '\r' := by
  decide

theorem statusLine_ne_cr (code : Int) (text : PyStr)
    (ht : ∀ c ∈ text, c ≠ '\r') :
    ∀ c ∈ S "HTTP/1.1 " ++ intStr code ++ ' ' :: text, c ≠ '\r' := by
  intro c hc
  rcases List.mem_append.mp hc with h | h
  · rcases List.mem_append.mp h with h1 | h1
    · exact http_lit_ne_cr c h1
    · exact intStr_ne_cr code c h1
  · rcases List.mem_cons.mp h with h1 | h1
    · subst h1; decide
    · exact ht c h1

/-- Splitting the wire form of any constructed `Response` on CRLF yields
exactly the status line, the single Content-Type header, the empty line,
and the JSON body — no other header lines exist. -/
theorem to_http_response_lines (code : Int)
    (content : Option (List (PyStr × PyStr))) :
    pySplitListNE '\r' ['\n']
        (Response.to_http_response (Response.init code content)) =
      [S "HTTP/1.1 " ++ intStr code ++ ' ' ::
          tableGet status_messages code (S "Unknown"),
        S "Content-Type: application/json", [],
        jsonDumps (Response.init code content).content] := by
  rw [to_http_response_eq_join]
  rw [show crlf = ('\r' :: ['\n'] : PyStr) from rfl]
  have hsc : (Response.init code content).status_code = code := rfl
  have hst : (Response.init code content).status_text =
      tableGet status_messages code (S "Unknown") := rfl
  rw [hsc, hst]
  apply pySplitListNE_join
  · simp
  · intro l hl
    rcases List.mem_cons.mp hl with h | hl
    · subst h
      exact statusLine_ne_cr code _ (statusText_ne_cr code)
    rcases List.mem_cons.mp hl with h | hl
    · subst h
      exact ct_lit_ne_cr
    rcases List.mem_cons.mp hl with h | hl
    · subst h
      intro c hc
      simp at hc
    · simp at hl
      subst hl
      exact jsonDumps_ne_cr _

theorem wire_split_blankSep (code : Int)
    (content : Option (List (PyStr × PyStr))) :
    pySplit1NE '\r' ['\n', '\r', '\n']
        (Response.to_http_response (Response.init code content)) =
      some ((S "HTTP/1.1 " ++ intStr code ++ ' ' ::
          tableGet status_messages code (S "Unknown")) ++
          S "\r\nContent-Type: application/json",
        jsonDumps (Response.init code content).content) := by
  rw [to_http_response_eq_join]
  have hsc : (Response.init code content).status_code = code := rfl
  have hst : (Response.init code content).status_text =
      tableGet status_messages code (S "Unknown") := rfl
  rw [hsc, hst]
  rw [show joinWith crlf [S "HTTP/1.1 " ++ intStr code ++ ' ' ::
        tableGet status_messages code (S "Unknown"),
      S "Content-Type: application/json", [],
      jsonDumps (Response.init code content).content] =
    joinWith crlf [S "HTTP/1.1 " ++ intStr code ++ ' ' ::
        tableGet status_messages code (S "Unknown"),
      S "Content-Type: application/json"] ++
      (blankSep ++ jsonDumps (Response.init code content).content) from by
    simp [joinWith, blankSep, crlf, List.append_assoc]]
  rw [pySplit1_blankSep _ _ (by simp) ?hlines]
  · congr 2
    rw [show S "\r\nContent-Type: application/json" =
      crlf ++ S "Content-Type: application/json" from rfl]
    simp [joinWith, List.append_assoc]
  case hlines =>
    intro l hl
    rcases List.mem_cons.mp hl with h | hl
    · subst h
      constructor
      · simp [S]
      · exact statusLine_ne_cr code _ (statusText_ne_cr code)
    · simp only [List.mem_singleton] at hl
      subst hl
      exact ⟨by simp [S], ct_lit_ne_cr⟩

/-! ### Dispatch helper lemmas -/

theorem findRoute_append_of_miss (pre rest : List Route) (m p : PyStr)
    (h : ∀ r ∈ pre, r.matches m p = false) :
    findRoute (pre ++ rest) m p = findRoute rest m p := by
  induction pre with
  | nil => rfl
  | cons r pre ih =>
    rw [List.cons_append, findRoute,
      if_neg (by rw [h r (List.mem_cons_self r pre)]; simp)]
    exact ih (fun r' hr' => h r' (List.mem_cons_of_mem r hr'))

theorem findRoute_none_of_miss (routes : List Route) (m p : PyStr)
    (h : ∀ r ∈ routes, r.matches m p = false) :
    findRoute routes m p = none := by
  induction routes with
  | nil => rfl
  | cons r rs ih =>
    rw [findRoute, if_neg (by rw [h r (List.mem_cons_self r rs)]; simp)]
    exact ih (fun r' hr' => h r' (List.mem_cons_of_mem r hr'))

theorem handle_request_404 (routes : List Route)
    (auth : Option (List (PyStr × PyStr) → Bool)) (req : Request)
    (hct : ctGuardFails req = false)
    (hauth : authDenies auth req.headers = false)
    (hmiss : ∀ r ∈ routes, r.matches req.method req.path = false) :
    handle_request routes auth req =
      Response.init 404 (some [(S "error", S "Route not found")]) := by
  rw [handle_request, if_neg (by rw [hct]; simp), afterContentTypeGuard,
    if_neg (by rw [hauth]; simp), dispatch,
    findRoute_none_of_miss routes _ _ hmiss]

/-- Example handlers used by the concrete witnesses. -/
def handlerA : Request → Response := fun _ => Response.init 200 (some [(S "h", S "a")])

/-- A second example handler, returning different content than `handlerA`. -/
def handlerB : Request → Response := fun _ => Response.init 200 (some [(S "h", S "b")])

theorem Route.matches_mk (m p : PyStr) (h : Request → Response)
    (m' p' : PyStr) :
    Route.matches ⟨m, p, h⟩ m' p' = (m == m' && p == p') := rfl

/-! ### The claims -/

/-- C1: the claim says the status table is
`{200: OK, 400: Bad Request, 403: Forbidden, 404: Not Found}` and that a
`Response` with code 403 has `status_text` "Forbidden".  The code's own
table in `response.py` has no 403 entry (even though `server.py`
declares the full table as `STATUS_MESSAGES` and logs "403 Forbidden"),
so a 403 `Response` carries `status_text` "Unknown": evaluating the
embedding at the failing input 403 exhibits the divergence, alongside
the agreeing entries and the "Unknown" default. -/
theorem c1_status_table_bug :
    (Response.init 403 none).status_text = S "Unknown" ∧
    tableGet spec_status_messages 403 (S "Unknown") = S "Forbidden" ∧
    (Response.init 200 none).status_text = S "OK" ∧
    (Response.init 400 none).status_text = S "Bad Request" ∧
    (Response.init 404 none).status_text = S "Not Found" ∧
    (Response.init 500 none).status_text = S "Unknown" := by
  refine ⟨?_, ?_, ?_, ?_, ?_, ?_⟩ <;> decide

/-- C2: for every well-formed raw request (three-token request line,
`key: value` header lines, blank-line separator, body), `from_raw`
recovers exactly the method, path, header dict and body used to build
it, and a duplicated header key keeps the value of its last
occurrence. -/
theorem c2_from_raw_roundtrip (method path version body : PyStr)
    (hdrs : List (PyStr × PyStr))
    (hm : method ≠ []) (hp : path ≠ []) (hv : version ≠ [])
    (hmw : ∀ c ∈ method, pyIsSpace c = false)
    (hpw : ∀ c ∈ path, pyIsSpace c = false)
    (hvw : ∀ c ∈ version, pyIsSpace c = false)
    (hh : ∀ p ∈ hdrs, (∀ c ∈ p.1, c ≠ ':' ∧ c ≠ '\r') ∧
      (∀ c ∈ p.2, c ≠ '\r')) :
    Request.from_raw (rawRequest method path version hdrs body) =
      { method := method, path := path, headers := pyDict hdrs,
        body := body } ∧
    ∀ k, dictGet?
        (Request.from_raw (rawRequest method path version hdrs body)).headers k =
      (hdrs.reverse.find? (fun p => p.1 == k)).map (fun p => p.2) := by
  have h1 := from_raw_wellFormed method path version hdrs body hm hp hv
    hmw hpw hvw hh
  refine ⟨h1, fun k => ?_⟩
  rw [h1]
  exact dictGet?_pyDict hdrs k

theorem c2_witness :
    Request.from_raw (rawRequest (S "POST") (S "/x") (S "HTTP/1.1")
        [(S "A", S "1"), (S "A", S "2")] (S "hello")) =
      { method := S "POST", path := S "/x",
        headers := pyDict [(S "A", S "1"), (S "A", S "2")],
        body := S "hello" } ∧
    dictGet? (Request.from_raw (rawRequest (S "POST") (S "/x") (S "HTTP/1.1")
        [(S "A", S "1"), (S "A", S "2")] (S "hello"))).headers (S "A") =
      some (S "2") := by
  have h := c2_from_raw_roundtrip (S "POST") (S "/x") (S "HTTP/1.1") (S "hello")
    [(S "A", S "1"), (S "A", S "2")] (by decide) (by decide) (by decide)
    (by decide) (by decide) (by decide) (by decide)
  refine ⟨h.1, ?_⟩
  rw [h.2 (S "A")]
  decide

/-- C3: raw data with no blank-line separator, or whose request line
does not split on whitespace into exactly three tokens, parses to the
empty sentinel `Request('', '', {}, '')`; `from_raw` is a total
function, which models that parsing never raises past this boundary. -/
theorem c3_malformed_sentinel (raw : PyStr)
    (h : pySplit1NE '\r' ['\n', '\r', '\n'] raw = none ∨
      ∀ pr, pySplit1NE '\r' ['\n', '\r', '\n'] raw = some pr →
        ∀ m p v, pySplitWs ((pySplitListNE '\r' ['\n'] pr.1).headD []) ≠
          [m, p, v]) :
    Request.from_raw raw = Request.empty := by
  rw [Request.from_raw]
  rcases h with h | h
  · rw [h]
  · split
    · rfl
    · next hp bd heq =>
      split
      · rfl
      · next rl hls heq2 =>
        split
        · next m p vv heq3 =>
          exfalso
          refine h (hp, bd) heq m p vv ?_
          have hhd : (pySplitListNE '\r' ['\n'] (hp, bd).1).headD [] = rl := by
            rw [heq2]; rfl
          rw [hhd, heq3]
        · rfl

theorem c3_witness :
    Request.from_raw (S "GET /x HTTP/1.1") = Request.empty :=
  c3_malformed_sentinel _ (Or.inl (by decide))

/-- C4: route matching is exact string equality on method and path, and
dispatch scans the table in registration order: with two routes of equal
method and path but different handlers (and no earlier route matching),
the first-registered handler is the one invoked. -/
theorem c4_route_order :
    (∀ (r : Route) (m p : PyStr),
      r.matches m p = true ↔ (r.method = m ∧ r.path = p)) ∧
    (∀ (pre mid post : List Route) (r1 r2 : Route) (req : Request),
      (∀ r ∈ pre, r.matches req.method req.path = false) →
      r2.method = r1.method → r2.path = r1.path →
      r1.handler ≠ r2.handler →
      r1.matches req.method req.path = true →
      dispatch (pre ++ r1 :: (mid ++ r2 :: post)) req = r1.handler req) := by
  constructor
  · intro r m p
    simp [Route.matches]
  · intro pre mid post r1 r2 req hpre _ _ _ hr1
    rw [dispatch, findRoute_append_of_miss pre _ _ _ hpre, findRoute,
      if_pos hr1]

theorem c4_witness :
    dispatch ([] ++ ⟨S "GET", S "/", handlerA⟩ ::
        ([] ++ ⟨S "GET", S "/", handlerB⟩ :: []))
        ⟨S "GET", S "/", [], []⟩ =
      handlerA ⟨S "GET", S "/", [], []⟩ := by
  refine c4_route_order.2 [] [] [] ⟨S "GET", S "/", handlerA⟩
    ⟨S "GET", S "/", handlerB⟩ ⟨S "GET", S "/", [], []⟩
    (by intro r hr; cases hr) rfl rfl ?_ (by decide)
  intro he
  have h2 := congrFun he ⟨S "GET", S "/", [], []⟩
  exact absurd h2 (by decide)

/-- C5: a request whose Content-Type header is present with a value
other than exactly "application/json" is answered
`400 {"error": "Invalid Content-Type"}`; with no Content-Type header or
with exactly "application/json", the handler proceeds past this guard
(to the authorization stage and dispatch). -/
theorem c5_content_type_guard (routes : List Route)
    (auth : Option (List (PyStr × PyStr) → Bool)) (req : Request) :
    (∀ v, dictGet? req.headers (S "Content-Type") = some v →
      v ≠ S "application/json" →
      handle_request routes auth req =
        Response.init 400 (some [(S "error", S "Invalid Content-Type")])) ∧
    ((dictGet? req.headers (S "Content-Type") = none ∨
      dictGet? req.headers (S "Content-Type") = some (S "application/json")) →
      handle_request routes auth req = afterContentTypeGuard routes auth req) := by
  constructor
  · intro v hv hne
    rw [handle_request, if_pos ?_]
    rw [ctGuardFails, hv]
    show (v != S "application/json") = true
    simpa using hne
  · intro h
    rw [handle_request, if_neg ?_]
    rcases h with h | h <;> rw [ctGuardFails, h] <;> simp

theorem c5_witness :
    handle_request [] none
        ⟨S "GET", S "/", [(S "Content-Type", S "text/plain")], []⟩ =
      Response.init 400 (some [(S "error", S "Invalid Content-Type")]) :=
  (c5_content_type_guard [] none
    ⟨S "GET", S "/", [(S "Content-Type", S "text/plain")], []⟩).1
    (S "text/plain") (by decide) (by decide)

/-- C6 counterexample to the claim as stated: with a deny-all
authorizer configured, the request with header
`Content-Type: text/plain` is answered 400 (the Content-Type guard runs
first), not 403 — so not every request is answered 403. -/
theorem c6_counterexample :
    handle_request [] (some fun _ => false)
        ⟨S "GET", S "/", [(S "Content-Type", S "text/plain")], []⟩ ≠
      Response.init 403 (some [(S "error", S "Forbidden")]) := by
  intro he
  have h2 := congrArg Response.status_code he
  revert h2
  decide

/-- C6 amended: with a deny-all authorizer, every request that passes
the Content-Type guard is answered `403 {"error": "Forbidden"}`
regardless of route; with no authorizer configured, the 403 branch is
never taken: the handler goes straight from the Content-Type guard to
dispatch. -/
theorem c6_auth_guard (routes : List Route) (req : Request) :
    (∀ f : List (PyStr × PyStr) → Bool, (∀ h, f h = false) →
      ctGuardFails req = false →
      handle_request routes (some f) req =
        Response.init 403 (some [(S "error", S "Forbidden")])) ∧
    handle_request routes none req =
      (if ctGuardFails req then
        Response.init 400 (some [(S "error", S "Invalid Content-Type")])
      else dispatch routes req) := by
  constructor
  · intro f hf hct
    rw [handle_request, if_neg (by rw [hct]; simp), afterContentTypeGuard,
      if_pos (by rw [authDenies, hf req.headers]; rfl)]
  · by_cases hct : ctGuardFails req = true
    · rw [handle_request, if_pos hct, if_pos hct]
    · rw [handle_request, if_neg hct, if_neg hct, afterContentTypeGuard,
        if_neg (by rw [authDenies]; simp)]

theorem c6_witness :
    handle_request [] (some fun _ => false) ⟨S "GET", S "/", [], []⟩ =
      Response.init 403 (some [(S "error", S "Forbidden")]) :=
  (c6_auth_guard [] ⟨S "GET", S "/", [], []⟩).1 (fun _ => false)
    (fun _ => rfl) (by decide)

/-- C7: when the Content-Type and authorization guards pass, a request
matching no registered route is answered
`404 {"error": "Route not found"}`; in particular the raw request
`GET /missing HTTP/1.1\r\n\r\n` against the example table
(`GET /`, `GET /about`), and the empty sentinel against any table of
routes with a non-empty method or path. -/
theorem c7_no_route_404 :
    (∀ (routes : List Route) (auth : Option (List (PyStr × PyStr) → Bool))
      (req : Request),
      ctGuardFails req = false → authDenies auth req.headers = false →
      (∀ r ∈ routes, r.matches req.method req.path = false) →
      handle_request routes auth req =
        Response.init 404 (some [(S "error", S "Route not found")])) ∧
    (∀ hA hB : Request → Response,
      handle_request [⟨S "GET", S "/", hA⟩, ⟨S "GET", S "/about", hB⟩] none
          (Request.from_raw (S "GET /missing HTTP/1.1\r\n\r\n")) =
        Response.init 404 (some [(S "error", S "Route not found")])) ∧
    (∀ (routes : List Route) (auth : Option (List (PyStr × PyStr) → Bool)),
      (∀ r ∈ routes, r.method ≠ [] ∨ r.path ≠ []) →
      authDenies auth [] = false →
      handle_request routes auth Request.empty =
        Response.init 404 (some [(S "error", S "Route not found")])) := by
  refine ⟨handle_request_404, fun hA hB => ?_, fun routes auth hr hauth => ?_⟩
  · have hraw : S "GET /missing HTTP/1.1\r\n\r\n" =
        rawRequest (S "GET") (S "/missing") (S "HTTP/1.1") [] [] := by decide
    rw [hraw, from_raw_wellFormed (S "GET") (S "/missing") (S "HTTP/1.1") [] []
      (by decide) (by decide) (by decide) (by decide) (by decide) (by decide)
      (by intro p hp; cases hp)]
    refine handle_request_404 _ none _ rfl rfl ?_
    intro r hr
    rcases List.mem_cons.mp hr with rfl | hr
    · rw [Route.matches_mk]; decide
    rcases List.mem_cons.mp hr with rfl | hr
    · rw [Route.matches_mk]; decide
    · cases hr
  · refine handle_request_404 routes auth Request.empty rfl hauth ?_
    intro r hrm
    rw [Route.matches]
    rcases hr r hrm with h | h <;>
      simp [Request.empty, beq_eq_false_iff_ne, h]

theorem c7_witness :
    handle_request [⟨S "GET", S "/", handlerA⟩] none
        ⟨S "POST", S "/", [], []⟩ =
      Response.init 404 (some [(S "error", S "Route not found")]) := by
  refine c7_no_route_404.1 [⟨S "GET", S "/", handlerA⟩] none
    ⟨S "POST", S "/", [], []⟩ (by decide) rfl ?_
  intro r hr
  rcases List.mem_singleton.mp hr with rfl
  decide

/-- C8: for every constructed `Response`, splitting the wire form on
CRLF yields exactly the status line, the single
`Content-Type: application/json` header line, the empty separator line,
and the JSON body — so no other header (no Content-Length, no
Connection) is ever emitted. -/
theorem c8_wire_shape (code : Int) (content : Option (List (PyStr × PyStr))) :
    pySplitListNE '\r' ['\n']
        (Response.to_http_response (Response.init code content)) =
      [S "HTTP/1.1 " ++ intStr code ++ ' ' ::
          tableGet status_messages code (S "Unknown"),
        S "Content-Type: application/json", [],
        jsonDumps (Response.init code content).content] :=
  to_http_response_lines code content

/-- C9 counterexample to the claim as stated: at status code 403 the
constructed status text is "Unknown", while the spec's fixed lookup
table prescribes "Forbidden" for this known code. -/
theorem c9_counterexample :
    (Response.init 403 (some [(S "k", S "v")])).status_text ≠
      tableGet spec_status_messages 403 (S "Unknown") := by
  decide

/-- C9 amended: for every status code and non-empty content dict,
serializing the constructed `Response` and splitting at the first blank
line yields the JSON body, whose parse returns exactly the original
content; the status line's text is the lookup in `response.py`'s own
table `{200, 400, 404}` with default "Unknown" (the spec's table
wrongly adds a 403 entry). -/
theorem c9_roundtrip (code : Int) (d : List (PyStr × PyStr)) (hne : d ≠ [])
    (hnd : (d.map (fun p => p.1)).Nodup) :
    pySplit1NE '\r' ['\n', '\r', '\n']
        (Response.to_http_response (Response.init code (some d))) =
      some ((S "HTTP/1.1 " ++ intStr code ++ ' ' ::
          tableGet status_messages code (S "Unknown")) ++
          S "\r\nContent-Type: application/json", jsonDumps d) ∧
    jsonLoadsDict (jsonDumps d) = some d := by
  have hcontent : (Response.init code (some d)).content = d := by
    show (if d.isEmpty then [] else d) = d
    rw [if_neg (by simpa [List.isEmpty_iff] using hne)]
  constructor
  · have hw := wire_split_blankSep code (some d)
    rw [hcontent] at hw
    exact hw
  · exact jsonLoadsDict_jsonDumps d hnd

theorem c9_witness :
    pySplit1NE '\r' ['\n', '\r', '\n']
        (Response.to_http_response
          (Response.init 200 (some [(S "message", S "Hello, world!")]))) =
      some ((S "HTTP/1.1 " ++ intStr 200 ++ ' ' ::
          tableGet status_messages 200 (S "Unknown")) ++
          S "\r\nContent-Type: application/json",
        jsonDumps [(S "message", S "Hello, world!")]) ∧
    jsonLoadsDict (jsonDumps [(S "message", S "Hello, world!")]) =
      some [(S "message", S "Hello, world!")] :=
  c9_roundtrip 200 [(S "message", S "Hello, world!")] (by decide) (by decide)

/-- C10: the constructed content is always a dict: omitted (`none`) or
empty content is normalized to the empty dict, whose serialization is
exactly `{}`; for any constructed `Response` the body is a JSON object
(it opens with `{` and closes with `}`) and is never the JSON value
`null`. -/
theorem c10_content_normalization (code : Int)
    (c : Option (List (PyStr × PyStr))) :
    (Response.init code none).content = [] ∧
    (Response.init code (some [])).content = [] ∧
    jsonDumps (Response.init code none).content = ['{', '}'] ∧
    jsonDumps (Response.init code c).content ≠ S "null" ∧
    ∃ mid, jsonDumps (Response.init code c).content = '{' :: (mid ++ ['}']) := by
  refine ⟨rfl, rfl, rfl, ?_, ⟨joinMembers (Response.init code c).content, rfl⟩⟩
  rw [jsonDumps]
  intro he
  rw [show S "null" = ['n', 'u', 'l', 'l'] from rfl] at he
  simp at he
